import Mathlib

/-!
Verification of the elasticutils query-builder core (`elasticutils/__init__.py`)
against its natural-language specification.

The embedding models Python values occurring in compiled query documents as a
small JSON-like inductive type `Value`.  Python dicts are modelled as
association lists with distinct keys (every dict the library builds is
constructed key-by-key, so this is faithful); Python 2 dict iteration order
is unspecified, therefore insertion order of the association list is a valid
model of it.  Raising an exception is modelled by `Except String`.
-/

namespace Elasticutils

/-- JSON-like model of the Python values the library manipulates. -/
inductive Value where
  | null : Value
  | bool : Bool → Value
  | int : Int → Value
  | str : String → Value
  | arr : List Value → Value
  | obj : List (String × Value) → Value

mutual

/-- Decidable equality for `Value` (the automatic derivation does not handle
this nested inductive type). -/
def valueDecEq : (a b : Value) → Decidable (a = b)
  | .null, .null => isTrue rfl
  | .null, .bool _ => isFalse (fun h => Value.noConfusion h)
  | .null, .int _ => isFalse (fun h => Value.noConfusion h)
  | .null, .str _ => isFalse (fun h => Value.noConfusion h)
  | .null, .arr _ => isFalse (fun h => Value.noConfusion h)
  | .null, .obj _ => isFalse (fun h => Value.noConfusion h)
  | .bool _, .null => isFalse (fun h => Value.noConfusion h)
  | .bool a, .bool b =>
      match decEq a b with
      | isTrue h => isTrue (by rw [h])
      | isFalse h => isFalse (fun hh => h (Value.bool.inj hh))
  | .bool _, .int _ => isFalse (fun h => Value.noConfusion h)
  | .bool _, .str _ => isFalse (fun h => Value.noConfusion h)
  | .bool _, .arr _ => isFalse (fun h => Value.noConfusion h)
  | .bool _, .obj _ => isFalse (fun h => Value.noConfusion h)
  | .int _, .null => isFalse (fun h => Value.noConfusion h)
  | .int _, .bool _ => isFalse (fun h => Value.noConfusion h)
  | .int a, .int b =>
      match decEq a b with
      | isTrue h => isTrue (by rw [h])
      | isFalse h => isFalse (fun hh => h (Value.int.inj hh))
  | .int _, .str _ => isFalse (fun h => Value.noConfusion h)
  | .int _, .arr _ => isFalse (fun h => Value.noConfusion h)
  | .int _, .obj _ => isFalse (fun h => Value.noConfusion h)
  | .str _, .null => isFalse (fun h => Value.noConfusion h)
  | .str _, .bool _ => isFalse (fun h => Value.noConfusion h)
  | .str _, .int _ => isFalse (fun h => Value.noConfusion h)
  | .str a, .str b =>
      match decEq a b with
      | isTrue h => isTrue (by rw [h])
      | isFalse h => isFalse (fun hh => h (Value.str.inj hh))
  | .str _, .arr _ => isFalse (fun h => Value.noConfusion h)
  | .str _, .obj _ => isFalse (fun h => Value.noConfusion h)
  | .arr _, .null => isFalse (fun h => Value.noConfusion h)
  | .arr _, .bool _ => isFalse (fun h => Value.noConfusion h)
  | .arr _, .int _ => isFalse (fun h => Value.noConfusion h)
  | .arr _, .str _ => isFalse (fun h => Value.noConfusion h)
  | .arr a, .arr b =>
      match valueListDecEq a b with
      | isTrue h => isTrue (by rw [h])
      | isFalse h => isFalse (fun hh => h (Value.arr.inj hh))
  | .arr _, .obj _ => isFalse (fun h => Value.noConfusion h)
  | .obj _, .null => isFalse (fun h => Value.noConfusion h)
  | .obj _, .bool _ => isFalse (fun h => Value.noConfusion h)
  | .obj _, .int _ => isFalse (fun h => Value.noConfusion h)
  | .obj _, .str _ => isFalse (fun h => Value.noConfusion h)
  | .obj _, .arr _ => isFalse (fun h => Value.noConfusion h)
  | .obj a, .obj b =>
      match valueObjDecEq a b with
      | isTrue h => isTrue (by rw [h])
      | isFalse h => isFalse (fun hh => h (Value.obj.inj hh))

/-- Decidable equality for lists of values. -/
def valueListDecEq : (a b : List Value) → Decidable (a = b)
  | [], [] => isTrue rfl
  | [], _ :: _ => isFalse (fun h => List.noConfusion h)
  | _ :: _, [] => isFalse (fun h => List.noConfusion h)
  | x :: xs, y :: ys =>
      match valueDecEq x y with
      | isFalse h => isFalse (fun hh => h (List.cons.inj hh).1)
      | isTrue h1 =>
          match valueListDecEq xs ys with
          | isTrue h2 => isTrue (by rw [h1, h2])
          | isFalse h2 => isFalse (fun hh => h2 (List.cons.inj hh).2)

/-- Decidable equality for key-value entry lists. -/
def valueObjDecEq : (a b : List (String × Value)) → Decidable (a = b)
  | [], [] => isTrue rfl
  | [], _ :: _ => isFalse (fun h => List.noConfusion h)
  | _ :: _, [] => isFalse (fun h => List.noConfusion h)
  | (k1, v1) :: xs, (k2, v2) :: ys =>
      match decEq k1 k2 with
      | isFalse h =>
          isFalse (fun hh => h (congrArg Prod.fst (List.cons.inj hh).1))
      | isTrue hk =>
          match valueDecEq v1 v2 with
          | isFalse h =>
              isFalse (fun hh => h (congrArg Prod.snd (List.cons.inj hh).1))
          | isTrue hv =>
              match valueObjDecEq xs ys with
              | isTrue h2 => isTrue (by rw [hk, hv, h2])
              | isFalse h2 => isFalse (fun hh => h2 (List.cons.inj hh).2)

end

instance : DecidableEq Value := valueDecEq

/-- Python truthiness (`bool(x)`) for the modelled values. -/
def Value.truthy : Value → Bool
  | .null => false
  | .bool b => b
  | .int n => n != 0
  | .str s => s ≠ ""
  | .arr l => !l.isEmpty
  | .obj l => !l.isEmpty

/-- Dict read, `d[k]` / `d.get(k)`: value at the first matching key. -/
def lookupKey : List (String × Value) → String → Option Value
  | [], _ => none
  | p :: rest, k => if p.1 == k then some p.2 else lookupKey rest k

/-- Dict write, `d[k] = v`: replace the value at `k` in place, else append. -/
def dictSet : List (String × Value) → String → Value → List (String × Value)
  | [], k, v => [(k, v)]
  | p :: rest, k, v => if p.1 == k then (k, v) :: rest else p :: dictSet rest k v

/-- Dict `d.update(updates)`: apply each pair of `updates` as a write. -/
def dictUpdate (d updates : List (String × Value)) : List (String × Value) :=
  updates.foldl (fun acc p => dictSet acc p.1 p.2) d

/-- Python `d.get(k, dflt)`. -/
def pyGetD (d : List (String × Value)) (k : String) (dflt : Value) : Value :=
  (lookupKey d k).getD dflt

/-- Python `dict(pairs)`: one entry per key, the last value for a key wins.
CPython keeps the first-insertion position; Python 2 dict order is
unspecified anyway, so this model keeps the position of the last
occurrence instead, which makes the no-duplicate case order-preserving. -/
def pyDict : List (String × Value) → List (String × Value)
  | [] => []
  | p :: rest =>
      let r := pyDict rest
      if r.any (fun q => q.1 == p.1) then r else p :: r

/-- Python `d.pop(k, dflt)` restricted to its effect on the dict. -/
def popKey (d : List (String × Value)) (k : String) : List (String × Value) :=
  d.filter (fun p => !(p.1 == k))

/-- Split a character list at the LAST occurrence of the separator `__`,
returning the parts before and after it.  `none` when `__` does not occur.
This models Python `s.rsplit("__", 1)`. -/
def rsplitSep : List Char → Option (List Char × List Char)
  | [] => none
  | c :: rest =>
      match rsplitSep rest with
      | some (l, r) => some (c :: l, r)
      | none =>
          match c, rest with
          | '_', '_' :: tail => some ([], tail)
          | _, _ => none

/-- Model of `_split(s)`: `s.rsplit("__", 1)` when `"__" in s`, else `(s, None)`. -/
def pySplit (s : String) : String × Option String :=
  match rsplitSep s.data with
  | none => (s, none)
  | some (l, r) => (String.mk l, some (String.mk r))

/-- Argument to `_process_filters`: either an `F` object (carrying its
`filters` document) or a `(key, value)` pair from keyword arguments. -/
inductive FilterItem where
  | f : Value → FilterItem
  | kv : String → Value → FilterItem
deriving DecidableEq

/-- The non-`or_` action dispatch of a `_process_filters` keyword pair:
no suffix is a term test, `in` a set test, `gt`/`gte`/`lt`/`lte` a range
test with the action naming the bound, and anything else raises
`InvalidFieldActionError` (modelled as `.error`). -/
def processFilterLeaf (key : String) (fieldAction : Option String)
    (v : Value) : Except String Value :=
  match fieldAction with
  | none => .ok (.obj [("term", .obj [(key, v)])])
  | some "in" => .ok (.obj [("in", .obj [(key, v)])])
  | some fa =>
      if fa == "gt" || fa == "gte" || fa == "lt" || fa == "lte" then
        .ok (.obj [("range", .obj [(key, .obj [(fa, v)])])])
      else
        .error (fa ++ " is not a valid field action")

theorem sizeOf_map_kv (items : List (String × Value)) :
    sizeOf (items.map (fun p => FilterItem.kv p.1 p.2)) = sizeOf items := by
  induction items with
  | nil => rfl
  | cons p rest ih =>
      obtain ⟨k1, v1⟩ := p
      simp [ih]

/-- Model of `_process_filters(filters)`: turn a list of `F` objects and
field-action keyword pairs into a list of filter clause documents.  The
`F` branch appends `f.filters` only when truthy; a split key equal to
`or_` recursively processes the items of its nested mapping into an `or`
group; other keys dispatch on the action suffix. -/
def processFilters : List FilterItem → Except String (List Value)
  | [] => .ok []
  | .f v :: rest =>
      match processFilters rest with
      | .error e => .error e
      | .ok r => .ok (if v.truthy then v :: r else r)
  | .kv k v :: rest =>
      if (pySplit k).1 == "or_" then
        match v with
        | .obj items =>
            match processFilters (items.map (fun p => FilterItem.kv p.1 p.2)) with
            | .error e => .error e
            | .ok inner =>
                match processFilters rest with
                | .error e => .error e
                | .ok r => .ok (.obj [("or", .arr inner)] :: r)
        | _ => .error "AttributeError: object has no attribute items"
      else
        match processFilterLeaf (pySplit k).1 (pySplit k).2 v with
        | .error e => .error e
        | .ok c =>
            match processFilters rest with
            | .error e => .error e
            | .ok r => .ok (c :: r)
termination_by l => sizeOf l
decreasing_by
  all_goals
    first
      | (rw [sizeOf_map_kv]; simp; omega)
      | (simp; omega)
      | simp

/-- Model of `_process_filters(val.items())` applied to the pairs of a mapping. -/
def processFilterPairs (l : List (String × Value)) : Except String (List Value) :=
  processFilters (l.map (fun p => FilterItem.kv p.1 p.2))

-- This instance lets concrete runs of the embedded functions be settled
-- by `decide`.
deriving instance DecidableEq for Except

/-- The contribution of a single `_process_filters` argument to the clause
list (zero or one clause for an `F`, exactly one for a keyword pair). -/
def processFilterOne : FilterItem → Except String (List Value)
  | .f v => .ok (if v.truthy then [v] else [])
  | .kv k v =>
      if (pySplit k).1 == "or_" then
        match v with
        | .obj items =>
            match processFilters (items.map (fun p => FilterItem.kv p.1 p.2)) with
            | .error e => .error e
            | .ok inner => .ok [.obj [("or", .arr inner)]]
        | _ => .error "AttributeError: object has no attribute items"
      else
        match processFilterLeaf (pySplit k).1 (pySplit k).2 v with
        | .error e => .error e
        | .ok c => .ok [c]

/-- Model of `_boosted_value(name, action, key, value, boost)`: boost a value if a
boost weight applies.  The `key` parameter is unused, as in the source. -/
def boostedValue (name : String) (action : Option String) (_key : String)
    (value : Value) (boost : Option Value) : Value :=
  match boost with
  | some b =>
      .obj [(name, .obj [("boost", b),
        ((if action == some "text" then "query" else "value"), value)])]
  | none => .obj [(name, value)]

/-- Model of `ACTION_MAP`: maps a field action to its ElasticSearch query name;
`none` on the left is the missing suffix (defaulting to `term`), `none` on
the right means the action is not in the map. -/
def actionMap : Option String → Option String
  | none => some "term"
  | some "in" => some "in"
  | some "term" => some "term"
  | some "startswith" => some "prefix"
  | some "prefix" => some "prefix"
  | some "text" => some "text"
  | some "text_phrase" => some "text_phrase"
  | some "fuzzy" => some "fuzzy"
  | some _ => none

/-- One `(key, val)` pair of the `_process_queries` loop. -/
def processQueryItem (boosts : List (String × Value)) (key : String)
    (val : Value) : Except String Value :=
  match pySplit key with
  | (fieldName, fieldAction) =>
      let boost :=
        match lookupKey boosts key with
        | some b => some b
        | none => lookupKey boosts fieldName
      match actionMap fieldAction with
      | some esName =>
          .ok (.obj [(esName, boostedValue fieldName fieldAction key val boost)])
      | none =>
          if fieldAction == some "query_string" then
            .ok (.obj [("query_string",
              .obj [("default_field", .str fieldName), ("query", val)])])
          else if fieldAction == some "gt" || fieldAction == some "gte" ||
              fieldAction == some "lt" || fieldAction == some "lte" then
            .ok (.obj [("range",
              .obj [(fieldName, boostedValue fieldName fieldAction key val boost)])])
          else
            .error ((match fieldAction with
              | some fa => fa
              | none => "None") ++ " is not a valid field action")

/-- Run a fallible function over the elements in order, stopping at the
first error (the behaviour of a Python loop in which an iteration may
raise). -/
def mapExcept {α β : Type} (g : α → Except String β) :
    List α → Except String (List β)
  | [] => .ok []
  | a :: l =>
      match g a with
      | .error e => .error e
      | .ok b =>
          match mapExcept g l with
          | .error e => .error e
          | .ok bs => .ok (b :: bs)

/-- The main loop of `_process_queries` over the pairs left after popping
`or_`. -/
def processQueryItems (boosts : List (String × Value))
    (items : List (String × Value)) : Except String (List Value) :=
  mapExcept (fun p => processQueryItem boosts p.1 p.2) items

theorem mem_pyDict {p : String × Value} :
    ∀ {l : List (String × Value)}, p ∈ pyDict l → p ∈ l := by
  intro l
  induction l with
  | nil => intro h; simp [pyDict] at h
  | cons q rest ih =>
      intro h
      simp only [pyDict] at h
      split at h
      · exact List.mem_cons_of_mem _ (ih h)
      · rcases List.mem_cons.mp h with h1 | h2
        · exact h1 ▸ List.mem_cons_self _ _
        · exact List.mem_cons_of_mem _ (ih h2)

theorem lookupKey_mem {k : String} {v : Value} :
    ∀ {l : List (String × Value)}, lookupKey l k = some v → (k, v) ∈ l := by
  intro l
  induction l with
  | nil => intro h; simp [lookupKey] at h
  | cons q rest ih =>
      intro h
      simp only [lookupKey] at h
      split at h
      · rename_i hq
        obtain ⟨k1, v1⟩ := q
        have hk : k1 = k := by simpa using hq
        have hv : v1 = v := by simpa using h
        subst hk; subst hv
        exact List.mem_cons_self _ _
      · exact List.mem_cons_of_mem _ (ih h)

theorem sizeOf_lookup_pyDict {l : List (String × Value)} {k : String}
    {v : Value} (h : lookupKey (pyDict l) k = some v) : sizeOf v < sizeOf l := by
  have hmem : (k, v) ∈ l := mem_pyDict (lookupKey_mem h)
  have h1 := List.sizeOf_lt_of_mem hmem
  have h2 : sizeOf v < sizeOf (k, v) := by
    simp only [Prod.mk.sizeOf_spec]
    omega
  omega

/-- Model of `S._process_queries(value)`: convert a list of query keyword pairs into
a list of query clause documents.  `value` is first turned into a dict, the
`or_` key is popped, every remaining pair is resolved through the field
action map, then a truthy `or_` mapping appends a `bool`/`should` clause
built from its items by recursion. -/
def processQueries (boosts : List (String × Value))
    (value : List (String × Value)) : Except String (List Value) :=
  match processQueryItems boosts (popKey (pyDict value) "or_") with
  | .error e => .error e
  | .ok rv =>
      match h : lookupKey (pyDict value) "or_" with
      | none => .ok rv
      | some (.obj l) =>
          if (Value.obj l).truthy then
            match processQueries boosts l with
            | .error e => .error e
            | .ok sub =>
                .ok (rv ++ [.obj [("bool", .obj [("should", .arr sub)])]])
          else .ok rv
      | some ov =>
          if ov.truthy then
            .error "AttributeError: object has no attribute items"
          else .ok rv
termination_by sizeOf value
decreasing_by
  have := sizeOf_lookup_pyDict h
  simp only [Value.obj.sizeOf_spec] at this
  omega

/-- Model of `hasKey`, the Python `k in d` test on a dict; `false` on non-dicts
(the library only applies it to dicts). -/
def Value.hasKey (v : Value) (k : String) : Bool :=
  match v with
  | .obj l => (lookupKey l k).isSome
  | _ => false

/-- Model of `F.__init__(**filters)`: build the filter document of a fresh `F` from
keyword arguments.  More than one processed item is wrapped in an `and`
group; no arguments give the empty document. -/
def mkF (kwargs : List (String × Value)) : Except String Value :=
  match kwargs with
  | [] => .ok (.obj [])
  | _ =>
      match processFilterPairs kwargs with
      | .error e => .error e
      | .ok items =>
          if items.length > 1 then .ok (.obj [("and", .arr items)])
          else
            match items with
            | [x] => .ok x
            | _ => .error "IndexError: list index out of range"

/-- Append `x` to the list stored at key `k` of dict `v`
(`v[k].append(x)`); `none` models the AttributeError raised when the
stored value is not a list. -/
def appendAt (v : Value) (k : String) (x : Value) : Option Value :=
  match v with
  | .obj l =>
      match lookupKey l k with
      | some (.arr elems) => some (.obj (dictSet l k (.arr (elems ++ [x]))))
      | _ => none
  | _ => none

/-- Model of `F._combine(self, other, conn)`.  The returned triple is
`(f.filters, self.filters after the call, other.filters after the call)`:
the source aliases the new `F`'s document to one of the operands and
appends to it in place, so the operands' documents after the call are part
of the observable behaviour.  `none` models the `AttributeError` raised
when the value stored under `conn` is not a list. -/
def combine (sf of_ : Value) (conn : String) : Option (Value × Value × Value) :=
  if !sf.truthy then some (of_, sf, of_)
  else if !of_.truthy then some (sf, sf, of_)
  else if sf.hasKey conn then
    match appendAt sf conn of_ with
    | some r => some (r, r, of_)
    | none => none
  else if of_.hasKey conn then
    match appendAt of_ conn sf with
    | some r => some (r, sf, r)
    | none => none
  else some (.obj [(conn, .arr [sf, of_])], sf, of_)

/-- Model of `F.__invert__(self)`: unwrap a canonical not-node
(`len(filters) < 2`, a `not` key whose value has a `filter` key), else
wrap the document in `{not: {filter: ...}}`.  The membership test on a
non-dict inner value is modelled as failing, which agrees with the source
on every document the `F` algebra can build. -/
def invert (f : Value) : Value :=
  match f with
  | .obj l =>
      if l.length < 2 then
        match lookupKey l "not" with
        | some (.obj il) =>
            match lookupKey il "filter" with
            | some x => x
            | none => .obj [("not", .obj [("filter", f)])]
        | _ => .obj [("not", .obj [("filter", f)])]
      else .obj [("not", .obj [("filter", f)])]
  | _ => .obj [("not", .obj [("filter", f)])]

/-- The unwrap condition of `F.__invert__`. -/
def unwraps (f : Value) : Bool :=
  match f with
  | .obj l =>
      decide (l.length < 2) &&
        (match lookupKey l "not" with
         | some (.obj il) => (lookupKey il "filter").isSome
         | _ => false)
  | _ => false

/-- The filter documents the `F` algebra produces: the empty dict,
single-key documents whose key is not `not` (term/in/range leaves and
`and`/`or` groups), and canonical not-nodes whose inner document is not
itself unwrappable.  Every document built by `F.__init__`, `_combine` and
`__invert__` has this shape. -/
inductive FWF : Value → Prop
  | empty : FWF (.obj [])
  | leaf (k : String) (v : Value) (hk : k ≠ "not") : FWF (.obj [(k, v)])
  | notNode (d : Value) (hd : FWF d) (hu : unwraps d = false) :
      FWF (.obj [("not", .obj [("filter", d)])])

/-- One recorded builder step, `(action, value)` in the source.  The
compile-time no-ops (`es_builder`, `es`, `indexes`, `doctypes`, `boost`)
are kept as opaque constructors since `_build_query` ignores them. -/
inductive Step where
  | order_by (keys : List String)
  | values_list (fs : List String)
  | values_dict (fs : List String)
  | explainStep (v : Bool)
  | query (kw : List (String × Value))
  | demote (amount : Value) (kw : List (String × Value))
  | filter (args : List FilterItem)
  | facet (args : List String) (flags : List (String × Value))
  | facet_raw (kw : List (String × Value))
  | highlight (fs : List (Option String)) (options : List (String × Value))
  | es_builder
  | es
  | indexes
  | doctypes
  | boostStep
deriving DecidableEq

/-- The accumulator of the `_build_query` step loop.  `fields` models the
Python set as an insertion-ordered duplicate-free list (Python 2 set order
is unspecified). -/
structure BuildState where
  filters : List Value := []
  queries : List Value := []
  sort : List Value := []
  fields : List String := ["id"]
  facets : List (String × Value) := []
  facetsRaw : List (String × Value) := []
  demoteAcc : Option (Value × List Value) := none
  highlightFields : List (Option String) := []
  highlightOptions : List (String × Value) := []
  explainFlag : Bool := false
  asList : Bool := false
  asDict : Bool := false
deriving DecidableEq

/-- Set union `s |= set(new)`, keeping first-insertion order. -/
def setUnion (base new : List String) : List String :=
  new.foldl (fun acc f => if acc.contains f then acc else acc ++ [f]) base

/-- Set union for the highlight field set, whose elements may be `None`. -/
def optSetUnion (base new : List (Option String)) : List (Option String) :=
  new.foldl (fun acc f => if acc.contains f then acc else acc ++ [f]) base

/-- Model of `_process_facets(facets, flags)`: each named field becomes a terms
facet; a truthy `global_` flag scopes it globally, else a truthy
`filtered` flag stores a `facet_filter` shell of `None` to be back-filled
later. -/
def processFacets (facets : List String) (flags : List (String × Value)) :
    List (String × Value) :=
  facets.foldl (fun rv fieldname =>
    let facetType : List (String × Value) :=
      [("terms", .obj [("field", .str fieldname)])]
    let facetType :=
      if (pyGetD flags "global_" .null).truthy then
        dictSet facetType "global" (pyGetD flags "global_" .null)
      else if (pyGetD flags "filtered" .null).truthy then
        dictSet facetType "facet_filter" .null
      else facetType
    dictSet rv fieldname (.obj facetType)) []

/-- One iteration of the `_build_query` step loop. -/
def processStep (boosts : List (String × Value)) (st : BuildState) :
    Step → Except String BuildState
  | .order_by keys =>
      .ok { st with sort := keys.map (fun k =>
        if k.startsWith "-" then .obj [((k.drop 1), .str "desc")] else .str k) }
  | .values_list fs =>
      .ok { st with fields := setUnion st.fields fs,
                    asList := true, asDict := false }
  | .values_dict fs =>
      .ok { st with
        fields := if fs.isEmpty then [] else setUnion st.fields fs,
        asList := false, asDict := true }
  | .explainStep v => .ok { st with explainFlag := v }
  | .query kw =>
      match processQueries boosts kw with
      | .error e => .error e
      | .ok qs => .ok { st with queries := st.queries ++ qs }
  | .demote amount kw =>
      match processQueries boosts kw with
      | .error e => .error e
      | .ok qs => .ok { st with demoteAcc := some (amount, qs) }
  | .filter args =>
      match processFilters args with
      | .error e => .error e
      | .ok fs => .ok { st with filters := st.filters ++ fs }
  | .facet args flags =>
      .ok { st with facets := dictUpdate st.facets (processFacets args flags) }
  | .facet_raw kw =>
      .ok { st with facetsRaw := dictUpdate st.facetsRaw (pyDict kw) }
  | .highlight fs options =>
      .ok { st with
        highlightFields :=
          if fs == [none] then [] else optSetUnion st.highlightFields fs,
        highlightOptions := dictUpdate st.highlightOptions options }
  | .es_builder => .ok st
  | .es => .ok st
  | .indexes => .ok st
  | .doctypes => .ok st
  | .boostStep => .ok st

/-- The `_build_query` step loop from a given accumulator state. -/
def stepFold (boosts : List (String × Value)) (st : BuildState) :
    List Step → Except String BuildState
  | [] => .ok st
  | s :: rest =>
      match processStep boosts st s with
      | .error e => .error e
      | .ok st2 => stepFold boosts st2 rest

/-- The `_build_query` step loop over all recorded steps. -/
def processSteps (boosts : List (String × Value)) (steps : List Step) :
    Except String BuildState :=
  stepFold boosts {} steps

/-- Filter clause of the compiled document: an `and` wrapper when more
than one filter, the bare filter when exactly one. -/
def phaseFilter (filters : List Value) (qs : List (String × Value)) :
    List (String × Value) :=
  if filters.length > 1 then dictSet qs "filter" (.obj [("and", .arr filters)])
  else
    match filters with
    | [f] => dictSet qs "filter" f
    | _ => qs

/-- Query clause: a `bool`/`must` wrapper when more than one query. -/
def phaseQuery (queries : List Value) (qs : List (String × Value)) :
    List (String × Value) :=
  if queries.length > 1 then
    dictSet qs "query" (.obj [("bool", .obj [("must", .arr queries)])])
  else
    match queries with
    | [q] => dictSet qs "query" q
    | _ => qs

/-- Demotion: wrap the already-assembled query in a boosting query.  The
source reads `qs['query']` unguarded, a KeyError when no query was
assembled. -/
def phaseDemote (demote : Option (Value × List Value))
    (qs : List (String × Value)) : Except String (List (String × Value)) :=
  match demote with
  | none => .ok qs
  | some (amt, neg) =>
      match lookupKey qs "query" with
      | none => .error "KeyError: query"
      | some q =>
          .ok (dictSet qs "query" (.obj [("boosting", .obj
            [("positive", q), ("negative", .arr neg), ("negative_boost", amt)])]))

/-- Requested stored fields, emitted only when the set is non-empty. -/
def phaseFields (fields : List String) (qs : List (String × Value)) :
    List (String × Value) :=
  if fields.isEmpty then qs else dictSet qs "fields" (.arr (fields.map .str))

/-- Back-fill one facet whose `facet_filter` was explicitly left as the
`None` shell: the source reads `qs['filter']` unguarded, a KeyError when
no filter clause was assembled. -/
def backfillFacet (qs : List (String × Value)) (p : String × Value) :
    Except String (String × Value) :=
  match p.2 with
  | .obj fv =>
      if pyGetD fv "facet_filter" (.int 1) == .null then
        match lookupKey qs "filter" with
        | some filt => .ok (p.1, .obj (dictSet fv "facet_filter" filt))
        | none => .error "KeyError: filter"
      else .ok p
  | _ => .ok p

/-- Facets: emitted when non-empty, with the `facet_filter` shells
back-filled from the compiled filter clause. -/
def phaseFacets (facets : List (String × Value)) (qs : List (String × Value)) :
    Except String (List (String × Value)) :=
  if facets.isEmpty then .ok qs
  else
    match mapExcept (backfillFacet qs) facets with
    | .error e => .error e
    | .ok bf => .ok (dictSet qs "facets" (.obj bf))

/-- Raw facets are merged into the facet entry
(`qs.setdefault('facets', {}).update(facets_raw)`).  The stored facets
entry is always a dict; the non-dict case cannot arise. -/
def phaseFacetsRaw (fr : List (String × Value)) (qs : List (String × Value)) :
    List (String × Value) :=
  if fr.isEmpty then qs
  else
    match lookupKey qs "facets" with
    | some (.obj l) => dictSet qs "facets" (.obj (dictUpdate l fr))
    | some _ => qs
    | none => dictSet qs "facets" (.obj fr)

/-- Sort clause, emitted when non-empty. -/
def phaseSort (sort : List Value) (qs : List (String × Value)) :
    List (String × Value) :=
  if sort.isEmpty then qs else dictSet qs "sort" (.arr sort)

/-- Paging start: `from` emitted only for truthy (non-zero) `start`. -/
def phaseFrom (start : Int) (qs : List (String × Value)) :
    List (String × Value) :=
  if start ≠ 0 then dictSet qs "from" (.int start) else qs

/-- Paging width: `size = stop - start` emitted whenever `stop` is set. -/
def phaseSize (start : Int) (stop : Option Int) (qs : List (String × Value)) :
    List (String × Value) :=
  match stop with
  | some sp => dictSet qs "size" (.int (sp - start))
  | none => qs

/-- Model of `_build_highlight`: the requested fields ordered by score, overridden
by explicit options.  A Python `None` highlight field (possible only
through a call like `highlight(None, f)`) would be a `None` dict key; it
is rendered here as the string key `"None"`, a case no verified claim
touches. -/
def buildHighlight (fields : List (Option String))
    (options : List (String × Value)) : Value :=
  let ret : List (String × Value) :=
    [("fields", .obj (fields.map (fun f =>
        ((match f with | some s => s | none => "None"), Value.obj [])))),
     ("order", .str "score")]
  .obj (dictUpdate ret options)

/-- Highlight clause, emitted when any highlight field is set. -/
def phaseHighlight (fields : List (Option String))
    (options : List (String × Value)) (qs : List (String × Value)) :
    List (String × Value) :=
  if fields.isEmpty then qs
  else dictSet qs "highlight" (buildHighlight fields options)

/-- Explain flag, emitted only when true. -/
def phaseExplain (explainFlag : Bool) (qs : List (String × Value)) :
    List (String × Value) :=
  if explainFlag then dictSet qs "explain" (.bool true) else qs

/-- Assembly of the compiled document from the accumulated step state, in
the source's order of key writes. -/
def assemble (st : BuildState) (start : Int) (stop : Option Int) :
    Except String (List (String × Value)) :=
  match phaseDemote st.demoteAcc (phaseQuery st.queries (phaseFilter st.filters [])) with
  | .error e => .error e
  | .ok qs1 =>
      match phaseFacets st.facets (phaseFields st.fields qs1) with
      | .error e => .error e
      | .ok qs2 =>
          .ok (phaseExplain st.explainFlag
            (phaseHighlight st.highlightFields st.highlightOptions
              (phaseSize start stop
                (phaseFrom start
                  (phaseSort st.sort
                    (phaseFacetsRaw st.facetsRaw qs2))))))

/-- Model of `S._build_query()`: compile the recorded steps, paging bounds and
field boosts into the query document. -/
def buildQuery (boosts : List (String × Value)) (steps : List Step)
    (start : Int) (stop : Option Int) : Except String (List (String × Value)) :=
  match processSteps boosts steps with
  | .error e => .error e
  | .ok st => assemble st start stop

/-- The action suffixes `_process_filters` accepts on a keyword (the
missing suffix maps to a term test). -/
def filterActions : List (Option String) :=
  [none, some "in", some "gt", some "gte", some "lt", some "lte"]

/-- The action suffixes `_process_queries` accepts on a keyword
(`ACTION_MAP` members, `query_string`, and the four range bounds). -/
def queryActions : List (Option String) :=
  [none, some "in", some "term", some "startswith", some "prefix",
   some "text", some "text_phrase", some "fuzzy", some "query_string",
   some "gt", some "gte", some "lt", some "lte"]

/-- The message of `InvalidFieldActionError`,
`"%s is not a valid field action" % field_action`. -/
def invalidActionMsg : Option String → String
  | some s => s ++ " is not a valid field action"
  | none => "None is not a valid field action"

/-- Is a step a filter step? -/
def isFilterStep : Step → Bool
  | .filter _ => true
  | _ => false

/-- Does a facet entry carry the `facet_filter = None` shell that the
back-fill pass rewrites? -/
def isNullShell (p : String × Value) : Bool :=
  match p.2 with
  | .obj fv => pyGetD fv "facet_filter" (.int 1) == .null
  | _ => false

/-- One element materialized from a hit: Python hands around either a bare
scalar (what `itemgetter` returns for a single key) or a tuple. -/
inductive PyObj where
  | scalar (v : Value)
  | tup (l : List Value)
deriving DecidableEq

/-- The per-instance mutable state of an `S`.  `resultsCache` holds the
objects of the cached `SearchResults` (`None` right after `__init__`). -/
structure SState where
  steps : List Step := []
  start : Int := 0
  stop : Option Int := none
  fieldBoosts : List (String × Value) := []
  resultsCache : Option (List PyObj) := none
deriving DecidableEq

/-- Model of `S._clone(next_step)`: copy steps (appending the next step), paging
bounds and boosts into a fresh instance, whose results cache starts empty. -/
def clone (s : SState) (nextStep : Option Step) : SState :=
  { steps := s.steps ++ nextStep.toList,
    start := s.start,
    stop := s.stop,
    fieldBoosts := s.fieldBoosts,
    resultsCache := none }

/-- Model of `S.__getitem__` with a slice: clone, then set the paging window
(`k.start or 0`, `k.stop`). -/
def getitemSlice (s : SState) (kstart kstop : Option Int) : SState :=
  { clone s none with start := kstart.getD 0, stop := kstop }

/-- Model of `self.filter(*filters, **kw)` as a step on the state. -/
def filterCall (s : SState) (args : List FilterItem) : SState :=
  clone s (some (.filter args))

/-- The compiled document of a builder state. -/
def buildQueryOf (s : SState) : Except String (List (String × Value)) :=
  buildQuery s.fieldBoosts s.steps s.start s.stop

/-- The request document `S.count()` compiles when nothing is cached:
`self[:0].raw()` slices to a zero-width window and builds; of the
response only `['hits']['total']` is read. -/
def countRequest (s : SState) : Except String (List (String × Value)) :=
  buildQueryOf (getitemSlice s none (some 0))

/-- Model of `S._do_search()` reduced to its caching behaviour: the backend is hit
whenever `not self._results_cache`, i.e. when the cache is `None` OR the
cached result set is empty (`SearchResults.__len__` makes an empty result
set falsy).  Returns the cache after the call and whether a backend
search was performed. -/
def doSearch (cache : Option (List PyObj)) (responseObjects : List PyObj) :
    Option (List PyObj) × Bool :=
  match cache with
  | some objs => if objs.isEmpty then (some responseObjects, true) else (some objs, false)
  | none => (some responseObjects, true)

/-- A response hit: its stored-fields payload (`r['fields']`) and its
source document (`r['_source']`). -/
structure Hit where
  fieldsPayload : List (String × Value) := []
  source : List (String × Value) := []
deriving DecidableEq

/-- Model of `operator.itemgetter(*fields)` applied to a dict: a bare item for one
key, a tuple for several; a missing key is a KeyError.  `itemgetter()`
with no keys is a TypeError (unreachable: the caller guards on a
non-empty field set). -/
def itemGetter (fields : List String) (d : List (String × Value)) :
    Except String PyObj :=
  match fields with
  | [] => .error "TypeError: itemgetter expected 1 argument, got 0"
  | [f] =>
      match lookupKey d f with
      | some v => .ok (.scalar v)
      | none => .error "KeyError"
  | _ =>
      match fields.mapM (fun f => lookupKey d f) with
      | some vs => .ok (.tup vs)
      | none => .error "KeyError"

/-- Model of `ListSearchResults.set_objects(hits)`: with requested fields, project
them from each hit's stored fields, re-wrapping the single-field bare item
into a one-element tuple; with no fields, each hit becomes the tuple of
all its source values in source order. -/
def listSetObjects (fields : List String) (hits : List Hit) :
    Except String (List PyObj) :=
  if !fields.isEmpty then
    match mapExcept (fun h => itemGetter fields h.fieldsPayload) hits with
    | .error e => .error e
    | .ok objs =>
        .ok (if fields.length == 1 then
          objs.map (fun o =>
            match o with
            | .scalar v => .tup [v]
            | t => t)
        else objs)
  else
    .ok (hits.map (fun h => .tup (h.source.map (fun p => p.2))))

/-! Theorems about the embedded program. -/

theorem invert_of_unwraps_false {d : Value} (hu : unwraps d = false) (hd : FWF d) :
    invert d = .obj [("not", .obj [("filter", d)])] := by
  cases hd with
  | empty => decide
  | leaf k v hk =>
      have hk2 : (k == "not") = false := by simpa using hk
      simp [invert, lookupKey, hk2]
  | notNode d2 hd2 hu2 =>
      exfalso
      simp [unwraps, lookupKey] at hu

/-- C7: for every filter document the `F` algebra can produce (captured by
`FWF`, which includes the empty document), inverting twice returns the
original document, not a doubly wrapped not-of-not structure. -/
theorem double_negation_cancels (X : Value) (h : FWF X) :
    invert (invert X) = X := by
  cases h with
  | empty => decide
  | leaf k v hk =>
      have hk2 : (k == "not") = false := by simpa using hk
      simp [invert, lookupKey, hk2]
  | notNode d hd hu =>
      have h1 : invert (.obj [("not", .obj [("filter", d)])]) = d := by
        simp [invert, lookupKey]
      rw [h1]
      exact invert_of_unwraps_false hu hd

/-- Witness for C7 at a concrete term filter. -/
theorem double_negation_cancels_witness :
    invert (invert (.obj [("term", .obj [("author", .str "melville")])])) =
      .obj [("term", .obj [("author", .str "melville")])] :=
  double_negation_cancels _ (FWF.leaf "term" _ (by decide))

/-- The invariant `FWF` is closed under inversion, supporting its reading as the set of
filter documents the `F` algebra produces. -/
theorem fwf_invert {X : Value} (h : FWF X) : FWF (invert X) := by
  cases h with
  | empty =>
      have h1 : invert (.obj []) =
          .obj [("not", .obj [("filter", .obj [])])] := by decide
      rw [h1]
      exact FWF.notNode _ FWF.empty (by decide)
  | leaf k v hk =>
      have hk2 : (k == "not") = false := by simpa using hk
      have hu : unwraps (.obj [(k, v)]) = false := by
        simp [unwraps, lookupKey, hk2]
      rw [invert_of_unwraps_false hu (FWF.leaf k v hk)]
      exact FWF.notNode _ (FWF.leaf k v hk) hu
  | notNode d hd hu =>
      have h1 : invert (.obj [("not", .obj [("filter", d)])]) = d := by
        simp [invert, lookupKey]
      rw [h1]
      exact hd

theorem fwf_appendAt {sf x r : Value} {conn : String} (hsf : FWF sf)
    (hc : conn ≠ "not") (h : appendAt sf conn x = some r) : FWF r := by
  cases hsf with
  | empty => simp [appendAt, lookupKey] at h
  | leaf k v hk =>
      unfold appendAt at h
      by_cases hkc : (k == conn) = true
      · have hke : k = conn := by simpa using hkc
        subst hke
        simp only [lookupKey, beq_self_eq_true, if_true] at h
        cases v with
        | arr elems =>
            simp only [Option.some.injEq] at h
            subst h
            simp only [dictSet, beq_self_eq_true, if_true]
            exact FWF.leaf k _ hc
        | null => cases h
        | bool b => cases h
        | int n => cases h
        | str s2 => cases h
        | obj l => cases h
      · have hkc2 : (k == conn) = false := by simpa using hkc
        simp [lookupKey, hkc2] at h
  | notNode d hd hu =>
      unfold appendAt at h
      by_cases hnc : (("not" : String) == conn) = true
      · have : conn = "not" := by
          have := (beq_iff_eq.mp hnc)
          exact this.symm
        exact absurd this hc
      · have hnc2 : (("not" : String) == conn) = false := by simpa using hnc
        simp [lookupKey, hnc2] at h

/-- The invariant `FWF` is closed under `_combine` (for the connectors `and` and `or`
the source uses), supporting its reading as the set of filter documents
the `F` algebra produces. -/
theorem fwf_combine {sf of_ : Value} {conn : String} {r ns no : Value}
    (hsf : FWF sf) (hof : FWF of_) (hc : conn ≠ "not")
    (h : combine sf of_ conn = some (r, ns, no)) : FWF r := by
  unfold combine at h
  split at h
  · simp only [Option.some.injEq, Prod.mk.injEq] at h
    obtain ⟨rfl, -, -⟩ := h
    exact hof
  · split at h
    · simp only [Option.some.injEq, Prod.mk.injEq] at h
      obtain ⟨rfl, -, -⟩ := h
      exact hsf
    · split at h
      · split at h
        · rename_i r2 hap
          simp only [Option.some.injEq, Prod.mk.injEq] at h
          obtain ⟨rfl, -, -⟩ := h
          exact fwf_appendAt hsf hc hap
        · cases h
      · split at h
        · split at h
          · rename_i r2 hap
            simp only [Option.some.injEq, Prod.mk.injEq] at h
            obtain ⟨rfl, -, -⟩ := h
            exact fwf_appendAt hof hc hap
          · cases h
        · simp only [Option.some.injEq, Prod.mk.injEq] at h
          obtain ⟨rfl, -, -⟩ := h
          exact FWF.leaf conn _ hc

/-- C2 counterexample: combining two AND-groups does not splice the second
operand list into the first; the whole second document is appended as one
nested operand. -/
theorem and_combine_nests_counterexample :
    (combine (.obj [("and", .arr [.obj [("term", .obj [("a", .int 1)])],
                                  .obj [("term", .obj [("b", .int 2)])]])])
             (.obj [("and", .arr [.obj [("term", .obj [("c", .int 3)])],
                                  .obj [("term", .obj [("d", .int 4)])]])])
             "and").map (fun t => t.1) =
      some (.obj [("and", .arr [.obj [("term", .obj [("a", .int 1)])],
                                .obj [("term", .obj [("b", .int 2)])],
                                .obj [("and", .arr [.obj [("term", .obj [("c", .int 3)])],
                                                    .obj [("term", .obj [("d", .int 4)])]])]])]) ∧
    (Value.obj [("and", .arr [.obj [("term", .obj [("a", .int 1)])],
                              .obj [("term", .obj [("b", .int 2)])],
                              .obj [("and", .arr [.obj [("term", .obj [("c", .int 3)])],
                                                  .obj [("term", .obj [("d", .int 4)])]])]])]) ≠
      (Value.obj [("and", .arr [.obj [("term", .obj [("a", .int 1)])],
                                .obj [("term", .obj [("b", .int 2)])],
                                .obj [("term", .obj [("c", .int 3)])],
                                .obj [("term", .obj [("d", .int 4)])]])]) := by
  constructor
  · decide
  · decide

/-- C2 amended: when the left operand's top-level combinator equals the
connector and the right operand is non-empty, `a & b` (dually `a | b`)
yields a single group whose operand list is the left operand list with the
right document appended as one operand (the new document also replaces the
left operand's own document through aliasing). -/
theorem combine_appends_whole_operand (conn : String) (l : List Value)
    (b : Value) (hb : b.truthy = true) :
    combine (.obj [(conn, .arr l)]) b conn =
      some (.obj [(conn, .arr (l ++ [b]))],
            .obj [(conn, .arr (l ++ [b]))], b) := by
  have hsf : (Value.obj [(conn, Value.arr l)]).truthy = true := by
    simp [Value.truthy]
  simp [combine, hsf, hb, Value.hasKey, lookupKey, appendAt, dictSet]

/-- Witness for C2's amended statement at a concrete pair of AND-groups. -/
theorem combine_appends_whole_operand_witness :
    combine (.obj [("and", .arr [.obj [("term", .obj [("a", .int 1)])]])])
            (.obj [("and", .arr [.obj [("term", .obj [("b", .int 2)])]])])
            "and" =
      some (.obj [("and", .arr [.obj [("term", .obj [("a", .int 1)])],
                    .obj [("and", .arr [.obj [("term", .obj [("b", .int 2)])]])]])],
            .obj [("and", .arr [.obj [("term", .obj [("a", .int 1)])],
                    .obj [("and", .arr [.obj [("term", .obj [("b", .int 2)])]])]])],
            .obj [("and", .arr [.obj [("term", .obj [("b", .int 2)])]])]) :=
  combine_appends_whole_operand "and" _ _ (by decide)

/-- C3: evaluation exhibiting the mutation of the left operand.  An `F`
whose document is an AND-group (as produced by `F(x=1) & F(y=2)`) combined
with `F(z=3)` leaves the left operand's `filters` aliased to the combined
document, which differs from its value before the call. -/
theorem combine_mutates_left_operand :
    (combine (.obj [("and", .arr [.obj [("term", .obj [("x", .int 1)])],
                                  .obj [("term", .obj [("y", .int 2)])]])])
             (.obj [("term", .obj [("z", .int 3)])])
             "and").map (fun t => t.2.1) =
      some (.obj [("and", .arr [.obj [("term", .obj [("x", .int 1)])],
                                .obj [("term", .obj [("y", .int 2)])],
                                .obj [("term", .obj [("z", .int 3)])]])]) ∧
    (Value.obj [("and", .arr [.obj [("term", .obj [("x", .int 1)])],
                              .obj [("term", .obj [("y", .int 2)])],
                              .obj [("term", .obj [("z", .int 3)])]])]) ≠
      (Value.obj [("and", .arr [.obj [("term", .obj [("x", .int 1)])],
                                .obj [("term", .obj [("y", .int 2)])]])]) := by
  constructor
  · decide
  · decide

/-- C1: evaluation of the query compiler at `query(price__gte=10,
price__lte=50)`.  Two separate range clauses are emitted, but their inner
key repeats the FIELD name (`_process_queries` passes `field_name` where
the bound name belongs), instead of the action suffix `gte`/`lte` that the
spec states, that ElasticSearch range syntax requires, and that the
filter path of the very same module emits. -/
theorem range_query_misnames_bound :
    processQueries [] [("price__gte", .int 10), ("price__lte", .int 50)] =
      .ok [.obj [("range", .obj [("price", .obj [("price", .int 10)])])],
           .obj [("range", .obj [("price", .obj [("price", .int 50)])])]] ∧
    buildQuery [] [.query [("price__gte", .int 10), ("price__lte", .int 50)]]
        0 none =
      .ok [("query", .obj [("bool", .obj [("must", .arr
            [.obj [("range", .obj [("price", .obj [("price", .int 10)])])],
             .obj [("range", .obj [("price", .obj [("price", .int 50)])])]])])]),
           ("fields", .arr [.str "id"])] ∧
    (Value.obj [("range", .obj [("price", .obj [("price", .int 10)])])]) ≠
      (Value.obj [("range", .obj [("price", .obj [("gte", .int 10)])])]) := by
  have h1 : processQueries [] [("price__gte", .int 10), ("price__lte", .int 50)] =
      .ok [.obj [("range", .obj [("price", .obj [("price", .int 10)])])],
           .obj [("range", .obj [("price", .obj [("price", .int 50)])])]] := by
    rw [processQueries.eq_def]; decide
  refine ⟨h1, ?_, by decide⟩
  simp only [buildQuery, processSteps, stepFold, processStep, h1]
  decide

/-- C5 counterexample: after a materialization caches an EMPTY result set,
a second materialization hits the backend again, because the cache check
is Python truthiness and an empty `SearchResults` is falsy.  Both calls
report a backend search. -/
theorem empty_cache_refetches :
    (doSearch none []).2 = true ∧ (doSearch (doSearch none []).1 []).2 = true := by
  decide

/-- C5 amended: once a NON-empty response is cached, later materializations
reuse the cache and perform no backend call; and a clone starts with an
empty cache, so materializing the clone always performs a backend call. -/
theorem cache_reuse_nonempty (resp resp2 : List PyObj) (hr : resp ≠ [])
    (s : SState) (st : Option Step) :
    (doSearch (doSearch none resp).1 resp2).2 = false ∧
    (doSearch (doSearch none resp).1 resp2).1 = some resp ∧
    (clone s st).resultsCache = none ∧
    (doSearch (clone s st).resultsCache resp2).2 = true := by
  have he : resp.isEmpty = false := by simpa using hr
  simp [doSearch, clone, he]

/-- Witness for C5's amended statement. -/
theorem cache_reuse_nonempty_witness :
    (doSearch (doSearch none [PyObj.scalar (.int 1)]).1 []).2 = false ∧
    (doSearch (doSearch none [PyObj.scalar (.int 1)]).1 []).1 =
      some [PyObj.scalar (.int 1)] ∧
    (clone {} none).resultsCache = none ∧
    (doSearch (clone {} none).resultsCache []).2 = true :=
  cache_reuse_nonempty [PyObj.scalar (.int 1)] [] (by decide) {} none

theorem mapExcept_ok_mem {α β : Type} (g : α → Except String β) :
    ∀ {l : List α} {out : List β}, mapExcept g l = .ok out →
      ∀ o ∈ out, ∃ a ∈ l, g a = .ok o := by
  intro l
  induction l with
  | nil =>
      intro out h o ho
      simp only [mapExcept] at h
      cases h
      simp at ho
  | cons a rest ih =>
      intro out h o ho
      simp only [mapExcept] at h
      cases hga : g a with
      | error e => rw [hga] at h; simp at h
      | ok b =>
          rw [hga] at h
          cases hrest : mapExcept g rest with
          | error e => rw [hrest] at h; simp at h
          | ok bs =>
              rw [hrest] at h
              have hout : out = b :: bs := (Except.ok.inj h).symm
              subst hout
              rcases List.mem_cons.mp ho with h1 | h2
              · exact ⟨a, List.mem_cons_self _ _, h1 ▸ hga⟩
              · obtain ⟨a2, ha2, hg2⟩ := ih hrest o h2
                exact ⟨a2, List.mem_cons_of_mem _ ha2, hg2⟩

theorem itemGetter_singleton {f : String} {d : List (String × Value)}
    {o : PyObj} (h : itemGetter [f] d = .ok o) : ∃ v, o = .scalar v := by
  simp only [itemGetter] at h
  cases hl : lookupKey d f with
  | none => rw [hl] at h; simp at h
  | some v => rw [hl] at h; exact ⟨v, (Except.ok.inj h).symm⟩

/-- C9 amended: whenever the final requested-field set has exactly one
field, every materialized element is a one-element tuple (never a bare
scalar); and with an EMPTY field set, each hit materializes into the tuple
of all its source values in source order. -/
theorem list_results_tuple_shape (f : String) (hits : List Hit)
    (out : List PyObj) (hok : listSetObjects [f] hits = .ok out) :
    (∀ o ∈ out, ∃ v, o = .tup [v]) ∧
    listSetObjects [] hits =
      .ok (hits.map (fun h => .tup (h.source.map (fun p => p.2)))) := by
  refine ⟨?_, by simp [listSetObjects]⟩
  intro o ho
  simp only [listSetObjects, List.isEmpty_cons, Bool.not_false, if_true] at hok
  cases hm : mapExcept (fun h => itemGetter [f] h.fieldsPayload) hits with
  | error e => rw [hm] at hok; simp at hok
  | ok objs =>
      rw [hm] at hok
      simp only [List.length_singleton] at hok
      have hout : out = objs.map (fun o =>
          match o with
          | .scalar v => PyObj.tup [v]
          | t => t) := by
        simpa using (Except.ok.inj hok).symm
      subst hout
      obtain ⟨o0, ho0, rfl⟩ := List.mem_map.mp ho
      obtain ⟨a, _, hga⟩ := mapExcept_ok_mem _ hm o0 ho0
      obtain ⟨v, rfl⟩ := itemGetter_singleton hga
      exact ⟨v, rfl⟩

/-- Witness for C9's amended statement. -/
theorem list_results_tuple_shape_witness :
    (∀ o ∈ [PyObj.tup [Value.int 7]], ∃ v, o = PyObj.tup [v]) ∧
    listSetObjects [] [{ fieldsPayload := [("id", .int 7)],
                         source := [("id", .int 7), ("name", .str "moby")] }] =
      .ok [.tup [.int 7, .str "moby"]] := by
  have h := list_results_tuple_shape "id"
    [{ fieldsPayload := [("id", .int 7)],
       source := [("id", .int 7), ("name", .str "moby")] }]
    [PyObj.tup [Value.int 7]] (by decide)
  exact ⟨h.1, h.2⟩

/-- C9 counterexample: on `S().values_list()` the requested-field set is
the default `{id}` (never empty), so a hit materializes into the
one-element tuple of its `id` stored field, NOT into the tuple of all its
source values. -/
theorem values_list_projects_default_id :
    (processSteps [] [.values_list []]).map (fun st => st.fields) = .ok ["id"] ∧
    listSetObjects ["id"] [{ fieldsPayload := [("id", .int 7)],
                             source := [("id", .int 7), ("name", .str "moby")] }] =
      .ok [.tup [.int 7]] ∧
    (PyObj.tup [Value.int 7]) ≠ (PyObj.tup [Value.int 7, Value.str "moby"]) := by
  refine ⟨by decide, by decide, by decide⟩

theorem processQueryItem_ok_of_action_map {boosts : List (String × Value)}
    {k f : String} {a : Option String} {es : String} {v : Value}
    (hsplit : pySplit k = (f, a)) (ham : actionMap a = some es) :
    processQueryItem boosts k v = .ok (.obj [(es,
      boostedValue f a k v (match lookupKey boosts k with
        | some b => some b | none => lookupKey boosts f))]) := by
  rw [processQueryItem.eq_def, hsplit]
  dsimp only
  rw [ham]

theorem processQueryItem_ok_query_string {boosts : List (String × Value)}
    {k f : String} {v : Value}
    (hsplit : pySplit k = (f, some "query_string")) :
    processQueryItem boosts k v = .ok (.obj [("query_string",
      .obj [("default_field", .str f), ("query", v)])]) := by
  rw [processQueryItem.eq_def, hsplit]
  rfl

theorem processQueryItem_ok_range {boosts : List (String × Value)}
    {k f fa : String} {v : Value}
    (hsplit : pySplit k = (f, some fa))
    (ham : actionMap (some fa) = none)
    (hqs : (fa == "query_string") = false)
    (hr : (fa == "gt" || fa == "gte" || fa == "lt" || fa == "lte") = true) :
    processQueryItem boosts k v = .ok (.obj [("range",
      .obj [(f, boostedValue f (some fa) k v (match lookupKey boosts k with
        | some b => some b | none => lookupKey boosts f))])]) := by
  rw [processQueryItem.eq_def, hsplit]
  dsimp only
  rw [ham]
  simp [hqs, hr]

theorem key_ne_or_of_split {k f : String} {a : Option String}
    (hsplit : pySplit k = (f, a)) (hf : f ≠ "or_") : (k == "or_") = false := by
  rw [beq_eq_false_iff_ne]
  intro hk
  subst hk
  have h2 : ("or_", (none : Option String)) = (f, a) := by
    rw [← hsplit]; decide
  exact hf (congrArg Prod.fst h2).symm

/-- C6: resolving a filter or query keyword whose key does not collapse to
the literal `or_` key raises `InvalidFieldActionError` naming the
offending suffix exactly when the suffix is outside the recognized set of
the respective processor, and never raises it on a recognized suffix. -/
theorem field_action_validation (k : String) (v : Value)
    (boosts : List (String × Value)) (f : String) (a : Option String)
    (hsplit : pySplit k = (f, a)) (hf : f ≠ "or_") :
    (a ∉ filterActions →
      processFilters [.kv k v] = .error (invalidActionMsg a)) ∧
    (a ∈ filterActions → ∃ c, processFilters [.kv k v] = .ok [c]) ∧
    (a ∉ queryActions →
      processQueries boosts [(k, v)] = .error (invalidActionMsg a)) ∧
    (a ∈ queryActions → ∃ c, processQueries boosts [(k, v)] = .ok [c]) := by
  have hfb : (f == "or_") = false := by simpa using hf
  have hkb : (k == "or_") = false := key_ne_or_of_split hsplit hf
  have hp1 : (pySplit k).1 = f := by rw [hsplit]
  have hp2 : (pySplit k).2 = a := by rw [hsplit]
  have hsingle : ∀ r : Except String Value, processFilterLeaf f a v = r →
      processFilters [.kv k v] =
        (match r with | .error e => .error e | .ok c => .ok [c]) := by
    intro r hr
    have h0 : processFilters ([] : List FilterItem) = .ok [] := by
      rw [processFilters.eq_def]
    rw [processFilters.eq_def]
    dsimp only
    simp only [hp1, hp2, hfb, Bool.false_eq_true, if_false, hr, h0]
    all_goals cases r <;> simp
  have hqsingle : ∀ r : Except String Value,
      processQueryItem boosts k v = r →
      processQueries boosts [(k, v)] =
        (match r with | .error e => .error e | .ok c => .ok [c]) := by
    intro r hr
    rw [processQueries.eq_def]
    have hpd : pyDict [(k, v)] = [(k, v)] := by simp [pyDict]
    rw [hpd]
    have hpop : popKey [(k, v)] "or_" = [(k, v)] := by
      simp [popKey, hkb]
    have hlk : lookupKey [(k, v)] "or_" = none := by
      simp [lookupKey, hkb]
    rw [hpop, hlk]
    simp only [processQueryItems, mapExcept, hr]
    cases r <;> simp
  refine ⟨?_, ?_, ?_, ?_⟩
  · intro ha
    have hsome : ∃ s, a = some s := by
      cases a with
      | none => exact absurd (by decide) ha
      | some s => exact ⟨s, rfl⟩
    obtain ⟨s, rfl⟩ := hsome
    simp only [filterActions, List.mem_cons, List.mem_singleton] at ha
    push_neg at ha
    obtain ⟨-, h1, h2, h3, h4, h5, -⟩ := ha
    have h1 : s ≠ "in" := fun hh => h1 (by rw [hh])
    have h2 : s ≠ "gt" := fun hh => h2 (by rw [hh])
    have h3 : s ≠ "gte" := fun hh => h3 (by rw [hh])
    have h4 : s ≠ "lt" := fun hh => h4 (by rw [hh])
    have h5 : s ≠ "lte" := fun hh => h5 (by rw [hh])
    have hkv : processFilterLeaf f (some s) v =
        .error (s ++ " is not a valid field action") := by
      rw [processFilterLeaf.eq_def]
      simp [h1, h2, h3, h4, h5]
    rw [hsingle _ hkv]
    simp [invalidActionMsg]
  · intro ha
    simp only [filterActions, List.mem_cons, List.mem_nil_iff, or_false] at ha
    have hok : ∃ c, processFilterLeaf f a v = .ok c := by
      rcases ha with rfl | rfl | rfl | rfl | rfl | rfl <;> exact ⟨_, rfl⟩
    obtain ⟨c, hc⟩ := hok
    exact ⟨c, by rw [hsingle _ hc]⟩
  · intro ha
    have hsome : ∃ s, a = some s := by
      cases a with
      | none => exact absurd (by decide) ha
      | some s => exact ⟨s, rfl⟩
    obtain ⟨s, rfl⟩ := hsome
    simp only [queryActions, List.mem_cons, List.mem_singleton] at ha
    push_neg at ha
    obtain ⟨-, h1, h2, h3, h4, h5, h6, h7, h8, h9, h10, h11, h12, -⟩ := ha
    have h1 : s ≠ "in" := fun hh => h1 (by rw [hh])
    have h2 : s ≠ "term" := fun hh => h2 (by rw [hh])
    have h3 : s ≠ "startswith" := fun hh => h3 (by rw [hh])
    have h4 : s ≠ "prefix" := fun hh => h4 (by rw [hh])
    have h5 : s ≠ "text" := fun hh => h5 (by rw [hh])
    have h6 : s ≠ "text_phrase" := fun hh => h6 (by rw [hh])
    have h7 : s ≠ "fuzzy" := fun hh => h7 (by rw [hh])
    have h8 : s ≠ "query_string" := fun hh => h8 (by rw [hh])
    have h9 : s ≠ "gt" := fun hh => h9 (by rw [hh])
    have h10 : s ≠ "gte" := fun hh => h10 (by rw [hh])
    have h11 : s ≠ "lt" := fun hh => h11 (by rw [hh])
    have h12 : s ≠ "lte" := fun hh => h12 (by rw [hh])
    have ham : actionMap (some s) = none := by
      rw [actionMap.eq_def]
      simp [h1, h2, h3, h4, h5, h6, h7]
    have hq : processQueryItem boosts k v =
        .error (s ++ " is not a valid field action") := by
      rw [processQueryItem.eq_def, hsplit]
      simp [ham, h8, h9, h10, h11, h12]
    rw [hqsingle _ hq]
    simp [invalidActionMsg]
  · intro ha
    simp only [queryActions, List.mem_cons, List.mem_nil_iff, or_false] at ha
    have hok : ∃ c, processQueryItem boosts k v = .ok c := by
      rcases ha with rfl | rfl | rfl | rfl | rfl | rfl | rfl | rfl | rfl |
        rfl | rfl | rfl | rfl
      · exact ⟨_, processQueryItem_ok_of_action_map hsplit rfl⟩
      · exact ⟨_, processQueryItem_ok_of_action_map hsplit rfl⟩
      · exact ⟨_, processQueryItem_ok_of_action_map hsplit rfl⟩
      · exact ⟨_, processQueryItem_ok_of_action_map hsplit rfl⟩
      · exact ⟨_, processQueryItem_ok_of_action_map hsplit rfl⟩
      · exact ⟨_, processQueryItem_ok_of_action_map hsplit rfl⟩
      · exact ⟨_, processQueryItem_ok_of_action_map hsplit rfl⟩
      · exact ⟨_, processQueryItem_ok_of_action_map hsplit rfl⟩
      · exact ⟨_, processQueryItem_ok_query_string hsplit⟩
      · exact ⟨_, processQueryItem_ok_range hsplit rfl (by decide) (by decide)⟩
      · exact ⟨_, processQueryItem_ok_range hsplit rfl (by decide) (by decide)⟩
      · exact ⟨_, processQueryItem_ok_range hsplit rfl (by decide) (by decide)⟩
      · exact ⟨_, processQueryItem_ok_range hsplit rfl (by decide) (by decide)⟩
    obtain ⟨c, hc⟩ := hok
    exact ⟨c, by rw [hqsingle _ hc]⟩

/-- Witness for C6 at a bogus suffix and at a recognized one. -/
theorem field_action_validation_witness :
    (processFilters [.kv "price__zap" (.int 1)] =
      .error "zap is not a valid field action") ∧
    (∃ c, processFilters [.kv "price__lte" (.int 1)] = .ok [c]) ∧
    (processQueries [] [("price__zap", .int 1)] =
      .error "zap is not a valid field action") ∧
    (∃ c, processQueries [] [("price__text", .int 1)] = .ok [c]) := by
  have h1 := field_action_validation "price__zap" (.int 1) [] "price"
    (some "zap") (by decide) (by decide)
  have h2 := field_action_validation "price__lte" (.int 1) [] "price"
    (some "lte") (by decide) (by decide)
  have h3 := field_action_validation "price__text" (.int 1) [] "price"
    (some "text") (by decide) (by decide)
  exact ⟨h1.1 (by decide), h2.2.1 (by decide), h1.2.2.1 (by decide),
    h3.2.2.2 (by decide)⟩

theorem processFilters_cons (it : FilterItem) (rest : List FilterItem) :
    processFilters (it :: rest) =
      match processFilterOne it with
      | .error e => .error e
      | .ok cs =>
          match processFilters rest with
          | .error e => .error e
          | .ok r => .ok (cs ++ r) := by
  cases it with
  | f v =>
      rw [processFilters.eq_def]
      dsimp only
      cases hr : processFilters rest with
      | error e => simp [processFilterOne, hr]
      | ok r =>
          simp only [processFilterOne, hr]
          cases v.truthy <;> simp
  | kv k v =>
      rw [processFilters.eq_def]
      dsimp only
      by_cases h : ((pySplit k).1 == "or_") = true
      · simp only [processFilterOne, h, if_true]
        cases v with
        | obj items =>
            cases hin : processFilters (items.map (fun p => FilterItem.kv p.1 p.2)) <;>
              simp only [hin] <;>
              cases hr : processFilters rest <;> simp [hr]
        | null => simp
        | bool b => simp
        | int n => simp
        | str s2 => simp
        | arr l => simp
      · have h2 : ((pySplit k).1 == "or_") = false := by
          simpa using h
        simp only [processFilterOne, h2, Bool.false_eq_true, if_false]
        cases hl : processFilterLeaf (pySplit k).1 (pySplit k).2 v <;>
          simp only [hl] <;>
          cases hr : processFilters rest <;> simp [hr]

theorem processFilters_append (xs ys : List FilterItem) :
    processFilters (xs ++ ys) =
      match processFilters xs with
      | .error e => .error e
      | .ok a =>
          match processFilters ys with
          | .error e => .error e
          | .ok b => .ok (a ++ b) := by
  induction xs with
  | nil =>
      have h0 : processFilters ([] : List FilterItem) = .ok [] := by
        rw [processFilters.eq_def]
      simp only [List.nil_append, h0]
      cases processFilters ys <;> simp
  | cons it rest ih =>
      rw [List.cons_append, processFilters_cons, processFilters_cons, ih]
      cases processFilterOne it <;>
        [skip; cases processFilters rest] <;>
        [skip; skip; cases processFilters ys] <;> simp

theorem stepFold_append (boosts : List (String × Value)) (st : BuildState)
    (l1 l2 : List Step) :
    stepFold boosts st (l1 ++ l2) =
      match stepFold boosts st l1 with
      | .error e => .error e
      | .ok s2 => stepFold boosts s2 l2 := by
  induction l1 generalizing st with
  | nil => simp [stepFold]
  | cons s rest ih =>
      simp only [List.cons_append, stepFold]
      cases processStep boosts st s <;> simp [ih]

/-- C8: for any builder, two consecutive filter steps compile exactly like
one filter step carrying both argument lists: the whole compiled document
is equal, in particular the filter clause.  This covers positional filter
expressions and keyword pairs alike, and also the error case (the first
invalid argument raises either way). -/
theorem filter_merge_across_calls (boosts : List (String × Value))
    (pre : List Step) (xs ys : List FilterItem) (start : Int)
    (stop : Option Int) :
    buildQuery boosts (pre ++ [.filter xs, .filter ys]) start stop =
      buildQuery boosts (pre ++ [.filter (xs ++ ys)]) start stop := by
  have hsteps : processSteps boosts (pre ++ [.filter xs, .filter ys]) =
      processSteps boosts (pre ++ [.filter (xs ++ ys)]) := by
    unfold processSteps
    rw [stepFold_append, stepFold_append]
    cases stepFold boosts {} pre with
    | error e => rfl
    | ok st =>
        simp only [stepFold, processStep, processFilters_append]
        cases hx : processFilters xs with
        | error e => rfl
        | ok a =>
            cases hy : processFilters ys with
            | error e => rfl
            | ok b => simp [stepFold, List.append_assoc]
  unfold buildQuery
  rw [hsteps]

theorem lookupKey_dictSet_self (d : List (String × Value)) (k : String)
    (v : Value) : lookupKey (dictSet d k v) k = some v := by
  induction d with
  | nil => simp [dictSet, lookupKey]
  | cons p rest ih =>
      simp only [dictSet]
      by_cases hp : (p.1 == k) = true
      · simp [hp, lookupKey]
      · have hp2 : (p.1 == k) = false := by simpa using hp
        simp [hp2, lookupKey, ih]

theorem lookupKey_dictSet_ne (d : List (String × Value)) (k k2 : String)
    (v : Value) (h : k2 ≠ k) :
    lookupKey (dictSet d k v) k2 = lookupKey d k2 := by
  have hk : (k == k2) = false := by
    simpa using fun hh => h hh.symm
  induction d with
  | nil => simp [dictSet, lookupKey, hk]
  | cons p rest ih =>
      simp only [dictSet]
      by_cases hp : (p.1 == k) = true
      · have hpk : p.1 = k := by simpa using hp
        simp [lookupKey, hk, hpk]
      · have hp2 : (p.1 == k) = false := by simpa using hp
        simp only [hp2, Bool.false_eq_true, if_false, lookupKey, ih]

theorem phaseFilter_lookup (filters : List Value) (qs : List (String × Value))
    (k : String) (h : k ≠ "filter") :
    lookupKey (phaseFilter filters qs) k = lookupKey qs k := by
  unfold phaseFilter
  split
  · exact lookupKey_dictSet_ne _ _ _ _ h
  · split
    · exact lookupKey_dictSet_ne _ _ _ _ h
    · rfl

theorem phaseQuery_lookup (queries : List Value) (qs : List (String × Value))
    (k : String) (h : k ≠ "query") :
    lookupKey (phaseQuery queries qs) k = lookupKey qs k := by
  unfold phaseQuery
  split
  · exact lookupKey_dictSet_ne _ _ _ _ h
  · split
    · exact lookupKey_dictSet_ne _ _ _ _ h
    · rfl

theorem phaseDemote_ok_lookup (demote : Option (Value × List Value))
    (qs qs2 : List (String × Value)) (k : String) (h : k ≠ "query")
    (hok : phaseDemote demote qs = .ok qs2) :
    lookupKey qs2 k = lookupKey qs k := by
  unfold phaseDemote at hok
  split at hok
  · cases hok; rfl
  · split at hok
    · cases hok
    · cases hok
      exact lookupKey_dictSet_ne _ _ _ _ h

theorem phaseFields_lookup (fields : List String) (qs : List (String × Value))
    (k : String) (h : k ≠ "fields") :
    lookupKey (phaseFields fields qs) k = lookupKey qs k := by
  unfold phaseFields
  split
  · rfl
  · exact lookupKey_dictSet_ne _ _ _ _ h

theorem phaseFacets_ok_lookup (facets : List (String × Value))
    (qs qs2 : List (String × Value)) (k : String) (h : k ≠ "facets")
    (hok : phaseFacets facets qs = .ok qs2) :
    lookupKey qs2 k = lookupKey qs k := by
  unfold phaseFacets at hok
  split at hok
  · cases hok; rfl
  · split at hok
    · cases hok
    · cases hok
      exact lookupKey_dictSet_ne _ _ _ _ h

theorem phaseFacetsRaw_lookup (fr : List (String × Value))
    (qs : List (String × Value)) (k : String) (h : k ≠ "facets") :
    lookupKey (phaseFacetsRaw fr qs) k = lookupKey qs k := by
  unfold phaseFacetsRaw
  split
  · rfl
  · split
    · exact lookupKey_dictSet_ne _ _ _ _ h
    · rfl
    · exact lookupKey_dictSet_ne _ _ _ _ h

theorem phaseSort_lookup (sort : List Value) (qs : List (String × Value))
    (k : String) (h : k ≠ "sort") :
    lookupKey (phaseSort sort qs) k = lookupKey qs k := by
  unfold phaseSort
  split
  · rfl
  · exact lookupKey_dictSet_ne _ _ _ _ h

theorem phaseFrom_lookup (start : Int) (qs : List (String × Value))
    (k : String) (h : k ≠ "from") :
    lookupKey (phaseFrom start qs) k = lookupKey qs k := by
  unfold phaseFrom
  split
  · exact lookupKey_dictSet_ne _ _ _ _ h
  · rfl

theorem phaseSize_lookup (start : Int) (stop : Option Int)
    (qs : List (String × Value)) (k : String) (h : k ≠ "size") :
    lookupKey (phaseSize start stop qs) k = lookupKey qs k := by
  unfold phaseSize
  split
  · exact lookupKey_dictSet_ne _ _ _ _ h
  · rfl

theorem phaseHighlight_lookup (fields : List (Option String))
    (options : List (String × Value)) (qs : List (String × Value))
    (k : String) (h : k ≠ "highlight") :
    lookupKey (phaseHighlight fields options qs) k = lookupKey qs k := by
  unfold phaseHighlight
  split
  · rfl
  · exact lookupKey_dictSet_ne _ _ _ _ h

theorem phaseExplain_lookup (e : Bool) (qs : List (String × Value))
    (k : String) (h : k ≠ "explain") :
    lookupKey (phaseExplain e qs) k = lookupKey qs k := by
  unfold phaseExplain
  split
  · exact lookupKey_dictSet_ne _ _ _ _ h
  · rfl

theorem assemble_zero_width (st : BuildState) (qs : List (String × Value))
    (h : assemble st 0 (some 0) = .ok qs) :
    lookupKey qs "size" = some (.int 0) ∧ lookupKey qs "from" = none := by
  unfold assemble at h
  cases hd : phaseDemote st.demoteAcc (phaseQuery st.queries (phaseFilter st.filters [])) with
  | error e => rw [hd] at h; cases h
  | ok qs1 =>
      rw [hd] at h
      dsimp only at h
      cases hf : phaseFacets st.facets (phaseFields st.fields qs1) with
      | error e => rw [hf] at h; cases h
      | ok qs2 =>
          rw [hf] at h
          dsimp only at h
          have hqs : qs = phaseExplain st.explainFlag
              (phaseHighlight st.highlightFields st.highlightOptions
                (phaseSize 0 (some 0)
                  (phaseFrom 0
                    (phaseSort st.sort
                      (phaseFacetsRaw st.facetsRaw qs2))))) :=
            (Except.ok.inj h).symm
          subst hqs
          constructor
          · rw [phaseExplain_lookup _ _ _ (by decide),
               phaseHighlight_lookup _ _ _ _ (by decide)]
            unfold phaseSize
            simp [lookupKey_dictSet_self]
          · rw [phaseExplain_lookup _ _ _ (by decide),
               phaseHighlight_lookup _ _ _ _ (by decide),
               phaseSize_lookup _ _ _ _ (by decide)]
            unfold phaseFrom
            simp only [ne_eq, not_true_eq_false, Bool.false_eq_true, if_false,
              reduceIte]
            rw [phaseSort_lookup _ _ _ (by decide),
                phaseFacetsRaw_lookup _ _ _ (by decide),
                phaseFacets_ok_lookup _ _ _ _ (by decide) hf,
                phaseFields_lookup _ _ _ (by decide),
                phaseDemote_ok_lookup _ _ _ _ (by decide) hd,
                phaseQuery_lookup _ _ _ (by decide),
                phaseFilter_lookup _ _ _ (by decide)]
            rfl

/-- C4 amended: whenever `count()` compiles a request (nothing cached), the
compiled document has `size` equal to 0 and no `from` entry, whatever steps
and paging the builder accumulated; of the response only
`['hits']['total']` is read.  (The document still carries the accumulated
stored-fields projection; see the counterexample.) -/
theorem count_request_zero_width (s : SState) (qs : List (String × Value))
    (h : countRequest s = .ok qs) :
    lookupKey qs "size" = some (.int 0) ∧ lookupKey qs "from" = none := by
  unfold countRequest buildQueryOf getitemSlice clone buildQuery at h
  dsimp only at h
  cases hps : processSteps s.fieldBoosts (s.steps ++ (none : Option Step).toList) with
  | error e => rw [hps] at h; cases h
  | ok st =>
      rw [hps] at h
      exact assemble_zero_width st qs h

/-- Witness for C4's amended statement on the empty builder. -/
theorem count_request_zero_width_witness :
    lookupKey [("fields", Value.arr [Value.str "id"]), ("size", Value.int 0)]
      "size" = some (.int 0) ∧
    lookupKey [("fields", Value.arr [Value.str "id"]), ("size", Value.int 0)]
      "from" = none :=
  count_request_zero_width {} _ (by decide)

/-- C4 counterexample: the request `count()` compiles for a fresh builder
DOES contain a field projection, namely the default `fields: ['id']`
entry, contradicting the claim that it never carries one. -/
theorem count_request_contains_fields_projection :
    countRequest {} =
      .ok [("fields", .arr [.str "id"]), ("size", .int 0)] ∧
    lookupKey [("fields", Value.arr [Value.str "id"]), ("size", Value.int 0)]
      "fields" ≠ none := by
  exact ⟨by decide, by decide⟩

theorem processStep_filters (boosts : List (String × Value)) (st : BuildState)
    (stp : Step) (st2 : BuildState) (hn : isFilterStep stp = false)
    (h : processStep boosts st stp = .ok st2) : st2.filters = st.filters := by
  cases stp with
  | query kw =>
      simp only [processStep] at h
      cases hq : processQueries boosts kw with
      | error e => rw [hq] at h; cases h
      | ok qs => rw [hq] at h; cases h; rfl
  | demote amount kw =>
      simp only [processStep] at h
      cases hq : processQueries boosts kw with
      | error e => rw [hq] at h; cases h
      | ok qs => rw [hq] at h; cases h; rfl
  | filter args => simp [isFilterStep] at hn
  | order_by keys => simp only [processStep] at h; cases h; rfl
  | values_list fs => simp only [processStep] at h; cases h; rfl
  | values_dict fs => simp only [processStep] at h; cases h; rfl
  | explainStep v => simp only [processStep] at h; cases h; rfl
  | facet args flags => simp only [processStep] at h; cases h; rfl
  | facet_raw kw => simp only [processStep] at h; cases h; rfl
  | highlight fs options => simp only [processStep] at h; cases h; rfl
  | es_builder => simp only [processStep] at h; cases h; rfl
  | es => simp only [processStep] at h; cases h; rfl
  | indexes => simp only [processStep] at h; cases h; rfl
  | doctypes => simp only [processStep] at h; cases h; rfl
  | boostStep => simp only [processStep] at h; cases h; rfl

theorem stepFold_filters (boosts : List (String × Value)) :
    ∀ (steps : List Step) (st0 st : BuildState),
      (∀ s ∈ steps, isFilterStep s = false) →
      stepFold boosts st0 steps = .ok st → st.filters = st0.filters := by
  intro steps
  induction steps with
  | nil =>
      intro st0 st _ h
      unfold stepFold at h
      cases h; rfl
  | cons stp rest ih =>
      intro st0 st hn h
      unfold stepFold at h
      cases hp : processStep boosts st0 stp with
      | error e => rw [hp] at h; cases h
      | ok st1 =>
          rw [hp] at h
          have h1 : st1.filters = st0.filters :=
            processStep_filters boosts st0 stp st1
              (hn stp (List.mem_cons_self _ _)) hp
          have h2 : st.filters = st1.filters :=
            ih st1 st (fun s hs => hn s (List.mem_cons_of_mem _ hs)) h
          rw [h2, h1]

theorem backfill_error (qs : List (String × Value))
    (hqf : lookupKey qs "filter" = none) :
    ∀ facets : List (String × Value),
      (∃ p ∈ facets, isNullShell p = true) →
      mapExcept (backfillFacet qs) facets = .error "KeyError: filter" := by
  intro facets
  induction facets with
  | nil =>
      rintro ⟨p, hp, -⟩
      simp at hp
  | cons q rest ih =>
      rintro ⟨p, hp, hshell⟩
      simp only [mapExcept]
      by_cases hq : isNullShell q = true
      · have hbf : backfillFacet qs q = .error "KeyError: filter" := by
          unfold isNullShell at hq
          cases hq2 : q.2 with
          | obj fv =>
              rw [hq2] at hq
              dsimp only at hq
              have hnull : pyGetD fv "facet_filter" (.int 1) = Value.null := by
                simpa using hq
              unfold backfillFacet
              rw [hq2]
              simp [hnull, hqf]
          | null => rw [hq2] at hq; cases hq
          | bool b => rw [hq2] at hq; cases hq
          | int n => rw [hq2] at hq; cases hq
          | str s2 => rw [hq2] at hq; cases hq
          | arr l => rw [hq2] at hq; cases hq
        rw [hbf]
      · have hq2 : isNullShell q = false := by simpa using hq
        have hbf : backfillFacet qs q = .ok q := by
          unfold isNullShell at hq2
          cases hq3 : q.2 with
          | obj fv =>
              rw [hq3] at hq2
              dsimp only at hq2
              unfold backfillFacet
              rw [hq3]
              simp [hq2]
          | null => unfold backfillFacet; rw [hq3]
          | bool b => unfold backfillFacet; rw [hq3]
          | int n => unfold backfillFacet; rw [hq3]
          | str s2 => unfold backfillFacet; rw [hq3]
          | arr l => unfold backfillFacet; rw [hq3]
        rw [hbf]
        have hprest : p ∈ rest := by
          rcases List.mem_cons.mp hp with rfl | hm
          · exact absurd hshell hq
          · exact hm
        rw [ih ⟨p, hprest, hshell⟩]

/-- C10 amended: a builder with no filter steps whose facet set still
contains a `facet_filter = None` shell at compile time (as left by a facet
step with the `filtered` flag naming at least one field, when no later
facet step replaces the entry) cannot compile: the back-fill pass reads
the absent `filter` entry of the document unguarded, so the compiler fails
with a missing-key error (`KeyError: filter`; or `KeyError: query` when an
earlier unguarded read of a demotion step fails first) instead of emitting
the facet without (or with an empty) `facet_filter`. -/
theorem filtered_facet_without_filters_fails (boosts : List (String × Value))
    (steps : List Step) (start : Int) (stop : Option Int) (st : BuildState)
    (hnf : ∀ stp ∈ steps, isFilterStep stp = false)
    (hok : processSteps boosts steps = .ok st)
    (hshell : ∃ p ∈ st.facets, isNullShell p = true) :
    buildQuery boosts steps start stop = .error "KeyError: filter" ∨
    buildQuery boosts steps start stop = .error "KeyError: query" := by
  have hfil : st.filters = [] := by
    have h := stepFold_filters boosts steps {} st hnf hok
    simpa using h
  unfold buildQuery
  rw [hok]
  dsimp only
  unfold assemble
  rw [hfil]
  cases hd : phaseDemote st.demoteAcc (phaseQuery st.queries (phaseFilter [] [])) with
  | error e =>
      right
      have he : e = "KeyError: query" := by
        unfold phaseDemote at hd
        split at hd
        · cases hd
        · split at hd
          · exact (Except.error.inj hd).symm
          · cases hd
      subst he
      rfl
  | ok qs1 =>
      left
      have hq1 : lookupKey qs1 "filter" = none := by
        rw [phaseDemote_ok_lookup _ _ _ _ (by decide) hd,
            phaseQuery_lookup _ _ _ (by decide)]
        rfl
      have hcm : lookupKey (phaseFields st.fields qs1) "filter" = none := by
        rw [phaseFields_lookup _ _ _ (by decide)]
        exact hq1
      have hne : st.facets.isEmpty = false := by
        obtain ⟨p, hp, -⟩ := hshell
        cases hfc : st.facets with
        | nil => rw [hfc] at hp; simp at hp
        | cons a l => rfl
      have hmf : mapExcept (backfillFacet (phaseFields st.fields qs1)) st.facets =
          .error "KeyError: filter" :=
        backfill_error _ hcm _ hshell
      have hpf : phaseFacets st.facets (phaseFields st.fields qs1) =
          .error "KeyError: filter" := by
        unfold phaseFacets
        rw [hne, hmf]
        simp
      dsimp only
      rw [hpf]

/-- C10 counterexample: the claim does not hold for EVERY builder with a
filtered facet step and no filter steps: a later facet step on the same
field can replace the entry (here with a global facet), the
`facet_filter = None` shell disappears, and compiling succeeds. -/
theorem filtered_facet_override_compiles :
    (∀ stp ∈ [Step.facet ["a"] [("filtered", Value.bool true)],
              Step.facet ["a"] [("global_", Value.bool true)]],
        isFilterStep stp = false) ∧
    buildQuery [] [.facet ["a"] [("filtered", .bool true)],
                   .facet ["a"] [("global_", .bool true)]] 0 none =
      .ok [("fields", .arr [.str "id"]),
           ("facets", .obj [("a", .obj [("terms", .obj [("field", .str "a")]),
              ("global", .bool true)])])] := by
  exact ⟨by decide, by decide⟩

/-- Witness for C10 at a concrete filtered facet. -/
theorem filtered_facet_without_filters_fails_witness :
    buildQuery [] [.facet ["tag"] [("filtered", .bool true)]] 0 none =
        .error "KeyError: filter" ∨
    buildQuery [] [.facet ["tag"] [("filtered", .bool true)]] 0 none =
        .error "KeyError: query" := by
  refine filtered_facet_without_filters_fails [] _ 0 none
    { facets := [("tag", Value.obj [("terms", Value.obj [("field", Value.str "tag")]),
        ("facet_filter", Value.null)])] }
    (by decide) (by decide) ?_
  exact ⟨("tag", Value.obj [("terms", Value.obj [("field", Value.str "tag")]),
      ("facet_filter", Value.null)]), by decide, by decide⟩

theorem processFilterLeaf_shape {key : String} {a : Option String}
    {v c : Value} (h : processFilterLeaf key a v = .ok c) :
    ∃ k2 v2, c = Value.obj [(k2, v2)] ∧ k2 ≠ "not" := by
  rw [processFilterLeaf.eq_def] at h
  split at h
  · exact ⟨"term", _, (Except.ok.inj h).symm, by decide⟩
  · exact ⟨"in", _, (Except.ok.inj h).symm, by decide⟩
  · split at h
    · exact ⟨"range", _, (Except.ok.inj h).symm, by decide⟩
    · cases h

theorem processFilterOne_kv_shape {k : String} {v : Value}
    {cs : List Value} (h : processFilterOne (.kv k v) = .ok cs) :
    ∀ c ∈ cs, ∃ k2 v2, c = Value.obj [(k2, v2)] ∧ k2 ≠ "not" := by
  intro c hc
  simp only [processFilterOne] at h
  split at h
  · split at h
    · split at h
      · cases h
      · rename_i inner hin
        have hcs : cs = [Value.obj [("or", Value.arr inner)]] :=
          (Except.ok.inj h).symm
        subst hcs
        simp only [List.mem_singleton] at hc
        exact ⟨"or", _, hc, by decide⟩
    · cases h
  · split at h
    · cases h
    · rename_i c2 hleaf
      have hcs : cs = [c2] := (Except.ok.inj h).symm
      subst hcs
      simp only [List.mem_singleton] at hc
      subst hc
      exact processFilterLeaf_shape hleaf

theorem processFilterPairs_shape :
    ∀ (l : List (String × Value)) (out : List Value),
      processFilterPairs l = .ok out →
      ∀ c ∈ out, ∃ k2 v2, c = Value.obj [(k2, v2)] ∧ k2 ≠ "not" := by
  intro l
  induction l with
  | nil =>
      intro out h c hc
      unfold processFilterPairs at h
      rw [processFilters.eq_def] at h
      cases h
      simp at hc
  | cons p rest ih =>
      intro out h c hc
      unfold processFilterPairs at h
      simp only [List.map_cons] at h
      rw [processFilters_cons] at h
      cases h1 : processFilterOne (.kv p.1 p.2) with
      | error e => rw [h1] at h; cases h
      | ok cs =>
          rw [h1] at h
          cases h2 : processFilters (rest.map (fun p => FilterItem.kv p.1 p.2)) with
          | error e => rw [h2] at h; cases h
          | ok r =>
              rw [h2] at h
              have hout : out = cs ++ r := (Except.ok.inj h).symm
              subst hout
              rcases List.mem_append.mp hc with hm | hm
              · exact processFilterOne_kv_shape h1 c hm
              · exact ih r h2 c hm

/-- The invariant `FWF` is closed under the `F` constructor: every document built from
keyword arguments satisfies the shape invariant. -/
theorem fwf_mkF {kwargs : List (String × Value)} {v : Value}
    (h : mkF kwargs = .ok v) : FWF v := by
  unfold mkF at h
  split at h
  · cases h
    exact FWF.empty
  · cases hp : processFilterPairs kwargs with
    | error e => rw [hp] at h; cases h
    | ok items =>
        rw [hp] at h
        dsimp only at h
        by_cases hl : items.length > 1
        · rw [if_pos hl] at h
          cases h
          exact FWF.leaf "and" _ (by decide)
        · rw [if_neg hl] at h
          rcases items with - | ⟨x, - | ⟨y, t⟩⟩
          · cases h
          · have hv : v = x := (Except.ok.inj h).symm
            subst hv
            obtain ⟨k2, v2, rfl, hk2⟩ :=
              processFilterPairs_shape kwargs [v] hp v (by simp)
            exact FWF.leaf k2 v2 hk2
          · cases h

end Elasticutils
